import Mathlib

/-!
Verification of the parse/tally/rank core of the Debian Contents
extraction tool (`package_extraction.py`).

The Python functions are shallowly embedded: strings are Lean `String`s
(characters handled through `String.data : List Char`), the `Counter`
mapping is an insertion-ordered association list from package name to
count, Python's `sorted` is `List.insertionSort` with the key
`(-count, name)` turned into a total preorder, and Python's slice
`l[:n]` (which accepts negative `n`) is `pySlice` over `Int`.
All definitions are total; the single `try/except` in the source
(`IndexError` on `rsplit(None, 1)[1]`) is the fall-through branch of a
`match`.
-/

/-- The six ASCII whitespace characters recognised by Python's
`str.strip()` / `str.split(None)`: space, tab, newline, carriage
return, vertical tab, form feed. -/
def pySpace (c : Char) : Bool :=
  c = ' ' || c = '\t' || c = '\n' || c = '\r' || c = '\x0b' || c = '\x0c'

/-- Python `str.strip()` on a character list: drop leading and trailing
whitespace. -/
def pyStrip (cs : List Char) : List Char :=
  ((cs.dropWhile pySpace).reverse.dropWhile pySpace).reverse

/-- Python `line.rsplit(None, 1)`: split on the last run of whitespace,
ignoring trailing whitespace; an all-whitespace string gives `[]`, a
string with no internal whitespace gives one part, otherwise two parts. -/
def rsplitNone1 (cs : List Char) : List (List Char) :=
  let rest := cs.reverse.dropWhile pySpace
  if rest.isEmpty then []
  else
    let fld := rest.takeWhile (fun c => !pySpace c)
    let before := (rest.drop fld.length).dropWhile pySpace
    if before.isEmpty then [fld.reverse] else [before.reverse, fld.reverse]

/-- Python `s.split(",")`: split on every comma; the empty string gives
`[""]`. -/
def splitComma : List Char → List (List Char)
  | [] => [[]]
  | c :: rest =>
    if c = ',' then [] :: splitComma rest
    else
      match splitComma rest with
      | [] => [[c]]
      | p :: ps => (c :: p) :: ps

/-- The per-line step of `parse_contents_lines`: strip the line, skip it
(`none`) when it is empty, starts with `#`, or `rsplit(None, 1)[1]`
raises `IndexError` (fewer than two parts); otherwise split the trailing
field on commas, strip each piece and keep the non-empty ones. -/
def parseLine (data : String) : Option (List String) :=
  let line := pyStrip data.data
  if line.isEmpty then none
  else if line.head? = some '#' then none
  else
    match rsplitNone1 line with
    | [_, fld] =>
        some ((((splitComma fld).map pyStrip).filter (fun p => !p.isEmpty)).map
          (fun p => String.mk p))
    | _ => none

/-- The tally: Python's `Counter`, an insertion-ordered mapping from
package name to count. -/
abbrev Tally := List (String × Nat)

/-- One increment of the `Counter`: bump the entry for `k` if present,
otherwise append `(k, 1)` at the end (Python dicts keep insertion
order). -/
def updateCount (m : Tally) (k : String) : Tally :=
  match m with
  | [] => [(k, 1)]
  | (k', v) :: rest => if k' = k then (k', v + 1) :: rest else (k', v) :: updateCount rest k

/-- `counts.update(pkgs)` for one input line: parse it and increment
every named package once, in order; skipped lines leave the tally
untouched. -/
def tallyLine (m : Tally) (data : String) : Tally :=
  match parseLine data with
  | none => m
  | some pkgs => pkgs.foldl updateCount m

/-- `parse_contents_lines`: fold all lines into a tally that starts
empty. -/
def parse_contents_lines (lines : List String) : Tally :=
  lines.foldl tallyLine []

/-- The count a tally associates to a package name (`Counter` returns 0
for a missing key). -/
def countOf (m : Tally) (k : String) : Nat :=
  match m with
  | [] => 0
  | (k', v) :: rest => if k' = k then v else countOf rest k

/-- Lexicographic comparison of character lists by code point, the
order Python uses to compare strings. -/
def lexle : List Char → List Char → Bool
  | [], _ => true
  | _ :: _, [] => false
  | c :: cs, d :: ds => if c = d then lexle cs ds else decide (c < d)

/-- The sort key of `top_n_packages`, `lambda kv: (-kv[1], kv[0])`, read
as a total preorder on rows: larger count first, ties broken by
lexicographically smaller name first. -/
def rowle (a b : String × Nat) : Prop :=
  b.2 < a.2 ∨ (a.2 = b.2 ∧ lexle a.1.data b.1.data = true)

instance : DecidableRel rowle := fun a b => by
  unfold rowle; infer_instance

/-- Python's slice `l[:n]` for an arbitrary integer `n`: a non-negative
`n` keeps the first `n` elements, a negative `n` drops the last `|n|`
elements. -/
def pySlice {α : Type} (l : List α) (n : Int) : List α :=
  if 0 ≤ n then l.take n.toNat else l.take (l.length - (-n).toNat)

/-- `top_n_packages`: `sorted(counts.items(), key=lambda kv: (-kv[1], kv[0]))[:n]`.
`n` is an `Int` because `--top` accepts any integer. -/
def top_n_packages (counts : Tally) (n : Int) : List (String × Nat) :=
  pySlice (counts.insertionSort rowle) n

/-- Python `s.ljust(w)`: pad on the right with spaces up to width `w`
(no-op when the string is already at least that wide). -/
def ljust (s : String) (w : Nat) : String :=
  s ++ String.mk (List.replicate (w - s.length) ' ')

/-- Python `s.rjust(w)`: pad on the left with spaces up to width `w`. -/
def rjust (s : String) (w : Nat) : String :=
  String.mk (List.replicate (w - s.length) ' ') ++ s

/-- Python `"\n".join(lines)`. -/
def joinNL : List String → String
  | [] => ""
  | [x] => x
  | x :: xs => x ++ "\n" ++ joinNL xs

/-- `format_table`: `"(no data)"` on an empty row list; otherwise a
leading blank line, the fixed-width header, a dashed separator, and one
content-width row per entry, joined by newlines with a trailing
newline. -/
def format_table (rows : List (String × Nat)) : String :=
  if rows.isEmpty then "(no data)"
  else
    let name_width := (rows.map (fun r => r.1.length)).foldr max 0
    let count_width := (rows.map (fun r => (Nat.repr r.2).length)).foldr max 0
    let header := "\n" ++ ljust "Package" 30 ++ "  " ++ rjust "File Count" 20
    let sep := String.mk (List.replicate name_width '-') ++ "------------"
    let body := rows.map (fun r => ljust r.1 name_width ++ "  " ++ rjust (Nat.repr r.2) count_width)
    joinNL (header :: sep :: body) ++ "\n"

/-- `build_contents_urls`: the `.gz` and `.xz` candidate URLs,
`M/dists/S/C/Contents-A.<ext>` with any trailing slashes stripped from
the mirror. -/
def build_contents_urls (arch mirror suite component : String) : String × String :=
  let base := String.mk ((mirror.data.reverse.dropWhile (fun c => c = '/')).reverse)
      ++ "/dists/" ++ suite ++ "/" ++ component
  (base ++ "/Contents-" ++ arch ++ ".gz", base ++ "/Contents-" ++ arch ++ ".xz")

/-- `open_remote_contents_stream`, abstracted over the network: `tryOpen`
stands for `try_open_url` (`none` meaning 404 or a logged error). The
`.gz` URL is tried first, then the `.xz` URL; if both fail the function
raises `RuntimeError` with a message naming both URLs. -/
def open_remote_contents_stream {α : Type} (arch mirror suite component : String)
    (tryOpen : String → Option α) : Except String (α × String) :=
  let urls := build_contents_urls arch mirror suite component
  match tryOpen urls.1 with
  | some resp => Except.ok (resp, urls.1)
  | none =>
    match tryOpen urls.2 with
    | some resp => Except.ok (resp, urls.2)
    | none => Except.error ("Could not find Contents file for \x27" ++ arch
        ++ "\x27. Tried:\n  " ++ urls.1 ++ "\n  " ++ urls.2)

/-- `p` occurs as a contiguous substring of `s`. -/
def substrOf (p s : String) : Prop :=
  ∃ a b : String, s = a ++ p ++ b

/-! ## Helper lemmas -/

theorem lexle_total : ∀ a b : List Char, lexle a b = true ∨ lexle b a = true
  | [], _ => Or.inl rfl
  | _ :: _, [] => Or.inr rfl
  | c :: cs, d :: ds => by
    by_cases h : c = d
    · subst h
      simpa [lexle] using lexle_total cs ds
    · rcases lt_or_gt_of_ne h with hlt | hgt
      · exact Or.inl (by simp [lexle, h, hlt])
      · exact Or.inr (by simp [lexle, Ne.symm h, hgt])

theorem lexle_trans : ∀ a b c : List Char,
    lexle a b = true → lexle b c = true → lexle a c = true
  | [], _, _, _, _ => rfl
  | _ :: _, [], _, h, _ => by simp [lexle] at h
  | _ :: _, _ :: _, [], _, h => by simp [lexle] at h
  | x :: xs, y :: ys, z :: zs, h1, h2 => by
    by_cases hxy : x = y
    · subst hxy
      by_cases hyz : x = z
      · subst hyz
        simp only [lexle, if_pos rfl] at h1 h2 ⊢
        exact lexle_trans xs ys zs h1 h2
      · simpa [lexle, hyz] using (by simpa [lexle, hyz] using h2)
    · have hlt : x < y := by simpa [lexle, hxy] using h1
      by_cases hyz : y = z
      · subst hyz
        simp [lexle, hxy, hlt]
      · have hlt2 : y < z := by simpa [lexle, hyz] using h2
        have hxz : x < z := lt_trans hlt hlt2
        simp [lexle, ne_of_lt hxz, hxz]

theorem rowle_total : ∀ a b : String × Nat, rowle a b ∨ rowle b a := by
  intro a b
  rcases Nat.lt_trichotomy a.2 b.2 with h | h | h
  · exact Or.inr (Or.inl h)
  · rcases lexle_total a.1.data b.1.data with h1 | h1
    · exact Or.inl (Or.inr ⟨h, h1⟩)
    · exact Or.inr (Or.inr ⟨h.symm, h1⟩)
  · exact Or.inl (Or.inl h)

theorem rowle_trans : ∀ a b c : String × Nat, rowle a b → rowle b c → rowle a c := by
  intro a b c hab hbc
  rcases hab with h1 | ⟨e1, l1⟩
  · rcases hbc with h2 | ⟨e2, _⟩
    · exact Or.inl (h2.trans h1)
    · exact Or.inl (e2 ▸ h1)
  · rcases hbc with h2 | ⟨e2, l2⟩
    · exact Or.inl (e1 ▸ h2)
    · exact Or.inr ⟨e1.trans e2, lexle_trans _ _ _ l1 l2⟩

theorem countOf_updateCount (m : Tally) (k0 k : String) :
    countOf (updateCount m k0) k = countOf m k + (if k0 = k then 1 else 0) := by
  induction m with
  | nil =>
    by_cases h : k0 = k <;> simp [updateCount, countOf, h]
  | cons p rest ih =>
    obtain ⟨k', v⟩ := p
    by_cases h1 : k' = k0
    · subst h1
      by_cases h2 : k' = k <;> simp [updateCount, countOf, h2]
    · by_cases h2 : k' = k
      · subst h2
        simp [updateCount, h1, countOf]
        exact fun hh => h1 hh.symm
      · simp [updateCount, h1, countOf, h2, ih]

theorem countOf_foldl_updateCount (pkgs : List String) (m : Tally) (k : String) :
    countOf (pkgs.foldl updateCount m) k = countOf m k + pkgs.count k := by
  induction pkgs generalizing m with
  | nil => simp
  | cons p ps ih =>
    rw [List.foldl_cons, ih, countOf_updateCount, List.count_cons]
    by_cases h : p = k
    · simp only [h, if_pos rfl, beq_self_eq_true, if_pos]
      omega
    · simp only [h, if_neg, beq_iff_eq, fun hh : k = p => h hh.symm]
      omega

theorem countOf_tallyLine (m : Tally) (data : String) (k : String) :
    countOf (tallyLine m data) k = countOf m k + ((parseLine data).getD []).count k := by
  unfold tallyLine
  cases h : parseLine data with
  | none => simp
  | some pkgs => simp [countOf_foldl_updateCount]

theorem countOf_foldl_tallyLine (ls : List String) (m : Tally) (k : String) :
    countOf (ls.foldl tallyLine m) k
      = countOf m k + (ls.map (fun d => ((parseLine d).getD []).count k)).sum := by
  induction ls generalizing m with
  | nil => simp
  | cons d ds ih =>
    rw [List.foldl_cons, ih, countOf_tallyLine, List.map_cons, List.sum_cons]
    omega

theorem countOf_parse_contents_lines (ls : List String) (k : String) :
    countOf (parse_contents_lines ls) k
      = (ls.map (fun d => ((parseLine d).getD []).count k)).sum := by
  unfold parse_contents_lines
  rw [countOf_foldl_tallyLine]
  simp [countOf]

theorem pos_updateCount : ∀ (m : Tally) (k : String), (∀ p ∈ m, 1 ≤ p.2) →
    ∀ p ∈ updateCount m k, 1 ≤ p.2
  | [], k, _, p, hp => by
    have hp1 : p = (k, 1) := by simpa [updateCount] using hp
    subst hp1
    exact Nat.le_refl 1
  | (k', v) :: rest, k, h, p, hp => by
    by_cases h1 : k' = k
    · simp only [updateCount, if_pos h1, List.mem_cons] at hp
      rcases hp with h2 | h2
      · subst h2
        exact Nat.succ_le_succ (Nat.zero_le v)
      · exact h p (List.mem_cons_of_mem _ h2)
    · simp only [updateCount, if_neg h1, List.mem_cons] at hp
      rcases hp with h2 | h2
      · subst h2
        exact h (k', v) (List.mem_cons_self _ _)
      · exact pos_updateCount rest k (fun q hq => h q (List.mem_cons_of_mem _ hq)) p h2

theorem pos_foldl_updateCount (pkgs : List String) (m : Tally)
    (h : ∀ p ∈ m, 1 ≤ p.2) : ∀ p ∈ pkgs.foldl updateCount m, 1 ≤ p.2 := by
  induction pkgs generalizing m with
  | nil => simpa using h
  | cons x xs ih => exact ih (updateCount m x) (pos_updateCount m x h)

theorem pos_tallyLine (m : Tally) (data : String) (h : ∀ p ∈ m, 1 ≤ p.2) :
    ∀ p ∈ tallyLine m data, 1 ≤ p.2 := by
  unfold tallyLine
  cases parseLine data with
  | none => simpa using h
  | some pkgs => exact pos_foldl_updateCount pkgs m h

theorem pos_foldl_tallyLine (ls : List String) (m : Tally)
    (h : ∀ p ∈ m, 1 ≤ p.2) : ∀ p ∈ ls.foldl tallyLine m, 1 ≤ p.2 := by
  induction ls generalizing m with
  | nil => simpa using h
  | cons d ds ih => exact ih (tallyLine m d) (pos_tallyLine m d h)

/-! ## Claim theorems -/

/-- C1 counterexample: on the spec's seven round-trip input lines the
code's tally gives pkg-foo count 4, not the claimed 3 (pkg-foo is named
on lines 1, 2, 5 and 6). -/
theorem round_trip_scenario_refuted :
    ¬ countOf (parse_contents_lines ["usr/bin/foo pkg-foo",
      "usr/share/doc/bar pkg-bar,pkg-baz,pkg-foo", "/var/lib/thing pkg-baz",
      "usr/bin/qux pkg-qux", "usr/bin/foo3 pkg-foo",
      "usr/share/doc/bar2 pkg-bar,pkg-baz,pkg-foo", "/var/lib/thing2 pkg-baz"])
      "pkg-foo" = 3 := by decide

/-- C1 (amended): on the spec's seven round-trip input lines,
`parse_contents_lines` returns exactly the tally pkg-foo 4, pkg-baz 4,
pkg-bar 2, pkg-qux 1 (four entries, no others), and `top_n_packages`
with n = 3 returns [(pkg-baz, 4), (pkg-foo, 4), (pkg-bar, 2)]
(count-descending, name-ascending tie-break between baz and foo). -/
theorem round_trip_scenario :
    countOf (parse_contents_lines ["usr/bin/foo pkg-foo",
      "usr/share/doc/bar pkg-bar,pkg-baz,pkg-foo", "/var/lib/thing pkg-baz",
      "usr/bin/qux pkg-qux", "usr/bin/foo3 pkg-foo",
      "usr/share/doc/bar2 pkg-bar,pkg-baz,pkg-foo", "/var/lib/thing2 pkg-baz"])
      "pkg-foo" = 4 ∧
    countOf (parse_contents_lines ["usr/bin/foo pkg-foo",
      "usr/share/doc/bar pkg-bar,pkg-baz,pkg-foo", "/var/lib/thing pkg-baz",
      "usr/bin/qux pkg-qux", "usr/bin/foo3 pkg-foo",
      "usr/share/doc/bar2 pkg-bar,pkg-baz,pkg-foo", "/var/lib/thing2 pkg-baz"])
      "pkg-baz" = 4 ∧
    countOf (parse_contents_lines ["usr/bin/foo pkg-foo",
      "usr/share/doc/bar pkg-bar,pkg-baz,pkg-foo", "/var/lib/thing pkg-baz",
      "usr/bin/qux pkg-qux", "usr/bin/foo3 pkg-foo",
      "usr/share/doc/bar2 pkg-bar,pkg-baz,pkg-foo", "/var/lib/thing2 pkg-baz"])
      "pkg-bar" = 2 ∧
    countOf (parse_contents_lines ["usr/bin/foo pkg-foo",
      "usr/share/doc/bar pkg-bar,pkg-baz,pkg-foo", "/var/lib/thing pkg-baz",
      "usr/bin/qux pkg-qux", "usr/bin/foo3 pkg-foo",
      "usr/share/doc/bar2 pkg-bar,pkg-baz,pkg-foo", "/var/lib/thing2 pkg-baz"])
      "pkg-qux" = 1 ∧
    (parse_contents_lines ["usr/bin/foo pkg-foo",
      "usr/share/doc/bar pkg-bar,pkg-baz,pkg-foo", "/var/lib/thing pkg-baz",
      "usr/bin/qux pkg-qux", "usr/bin/foo3 pkg-foo",
      "usr/share/doc/bar2 pkg-bar,pkg-baz,pkg-foo", "/var/lib/thing2 pkg-baz"]).length = 4 ∧
    top_n_packages (parse_contents_lines ["usr/bin/foo pkg-foo",
      "usr/share/doc/bar pkg-bar,pkg-baz,pkg-foo", "/var/lib/thing pkg-baz",
      "usr/bin/qux pkg-qux", "usr/bin/foo3 pkg-foo",
      "usr/share/doc/bar2 pkg-bar,pkg-baz,pkg-foo", "/var/lib/thing2 pkg-baz"]) 3
      = [("pkg-baz", 4), ("pkg-foo", 4), ("pkg-bar", 2)] := by
  refine ⟨?_, ?_, ?_, ?_, ?_, ?_⟩ <;> decide

/-- C2: tallying one parsed line adds exactly the line's package
multiset to the tally: with distinct names every named package gains 1
and every other package is unchanged, and a package named twice on the
line gains 2. -/
theorem tally_single_line (m : Tally) (data : String) (pkgs : List String)
    (hp : parseLine data = some pkgs) :
    (pkgs.Nodup →
      (∀ k ∈ pkgs, countOf (tallyLine m data) k = countOf m k + 1) ∧
      (∀ k, k ∉ pkgs → countOf (tallyLine m data) k = countOf m k)) ∧
    (∀ k, pkgs.count k = 2 → countOf (tallyLine m data) k = countOf m k + 2) := by
  have hc : ∀ k, countOf (tallyLine m data) k = countOf m k + pkgs.count k := by
    intro k
    rw [countOf_tallyLine, hp]
    rfl
  refine ⟨fun hnd => ⟨fun k hk => ?_, fun k hk => ?_⟩, fun k hk => ?_⟩
  · rw [hc k, List.count_eq_one_of_mem hnd hk]
  · rw [hc k, List.count_eq_zero_of_not_mem hk]
    omega
  · rw [hc k, hk]

theorem tally_single_line_witness :
    parseLine "usr/bin/foo pkg-a,pkg-b" = some ["pkg-a", "pkg-b"] ∧
    countOf (tallyLine [("pkg-a", 4)] "usr/bin/foo pkg-a,pkg-b") "pkg-a"
      = countOf [("pkg-a", 4)] "pkg-a" + 1 :=
  ⟨by decide,
    ((tally_single_line [("pkg-a", 4)] "usr/bin/foo pkg-a,pkg-b" ["pkg-a", "pkg-b"]
      (by decide)).1 (by decide)).1 "pkg-a" (by decide)⟩

/-- C5: parsing a permutation of the input lines yields the same tally
as a function from package names to counts. -/
theorem parse_order_invariant (l1 l2 : List String) (h : l1.Perm l2) (k : String) :
    countOf (parse_contents_lines l1) k = countOf (parse_contents_lines l2) k := by
  rw [countOf_parse_contents_lines, countOf_parse_contents_lines]
  exact (h.map _).sum_eq

theorem parse_order_invariant_witness :
    countOf (parse_contents_lines ["usr/bin/foo pkg-foo",
      "usr/share/doc/bar pkg-bar,pkg-baz"]) "pkg-baz"
      = countOf (parse_contents_lines ["usr/share/doc/bar pkg-bar,pkg-baz",
      "usr/bin/foo pkg-foo"]) "pkg-baz" :=
  parse_order_invariant _ _ (List.Perm.swap _ _ _) "pkg-baz"

/-- C8: a line whose trailing field splits on commas into pieces that
are all empty after trimming contributes nothing: the tally is returned
unchanged. -/
theorem tally_empty_pieces (m : Tally) (data : String) (p fld : List Char)
    (h1 : rsplitNone1 (pyStrip data.data) = [p, fld])
    (h2 : ∀ piece ∈ splitComma fld, pyStrip piece = []) :
    tallyLine m data = m := by
  have hfilter : ((splitComma fld).map pyStrip).filter (fun q => !q.isEmpty) = [] := by
    rw [List.filter_eq_nil_iff]
    intro q hq
    obtain ⟨piece, hpiece, rfl⟩ := List.mem_map.mp hq
    simp [h2 piece hpiece]
  unfold tallyLine parseLine
  by_cases he : (pyStrip data.data).isEmpty
  · simp [he]
  · by_cases hh : (pyStrip data.data).head? = some '#'
    · simp [he, hh]
    · simp [he, hh, h1, hfilter]

theorem tally_empty_pieces_witness :
    rsplitNone1 (pyStrip ("path ,,".data)) = [['p', 'a', 't', 'h'], [',', ',']] ∧
    (∀ piece ∈ splitComma [',', ','], pyStrip piece = []) ∧
    tallyLine [("x", 2)] "path ,," = [("x", 2)] :=
  ⟨by decide, by decide,
    tally_empty_pieces [("x", 2)] "path ,," ['p', 'a', 't', 'h'] [',', ',']
      (by decide) (by decide)⟩

/-- C9: every count stored in a parsed tally is at least 1 (the
embedding is total, so the parse also never fails). -/
theorem parse_counts_pos (lines : List String) :
    ∀ p ∈ parse_contents_lines lines, 1 ≤ p.2 := by
  unfold parse_contents_lines
  exact pos_foldl_tallyLine lines [] (by simp)

theorem parse_counts_pos_witness :
    ("pkg-foo", 1) ∈ parse_contents_lines ["usr/bin/foo pkg-foo"] ∧
    1 ≤ (("pkg-foo", 1) : String × Nat).2 :=
  ⟨by decide, parse_counts_pos ["usr/bin/foo pkg-foo"] ("pkg-foo", 1) (by decide)⟩

/-- C3: for every tally and every non-negative n, the selection is
sorted by count descending then name ascending and has length
min(n, size); n = 0 gives the empty sequence, and n at least the size
gives all entries, fully sorted. -/
theorem top_n_spec (counts : Tally) (n : Nat) :
    (top_n_packages counts (n : Int)).length = min n counts.length ∧
    List.Sorted rowle (top_n_packages counts (n : Int)) ∧
    (n = 0 → top_n_packages counts (n : Int) = []) ∧
    (counts.length ≤ n → (top_n_packages counts (n : Int)).Perm counts) := by
  haveI : IsTotal (String × Nat) rowle := ⟨rowle_total⟩
  haveI : IsTrans (String × Nat) rowle := ⟨rowle_trans⟩
  have hunf : top_n_packages counts (n : Int) = (counts.insertionSort rowle).take n := by
    unfold top_n_packages pySlice
    rw [if_pos (Int.ofNat_nonneg n)]
    simp
  refine ⟨?_, ?_, ?_, ?_⟩
  · rw [hunf, List.length_take, List.length_insertionSort]
  · rw [hunf]
    exact (List.sorted_insertionSort rowle counts).sublist (List.take_sublist _ _)
  · intro h0
    rw [hunf, h0, List.take_zero]
  · intro hge
    rw [hunf, List.take_of_length_le (by rw [List.length_insertionSort]; exact hge)]
    exact List.perm_insertionSort rowle counts

theorem top_n_spec_witness :
    (top_n_packages [("b", 1), ("a", 1)] ((3 : Nat) : Int)).Perm [("b", 1), ("a", 1)] :=
  (top_n_spec [("b", 1), ("a", 1)] 3).2.2.2 (by decide)

theorem rsplitNone1_length_le (cs : List Char) : (rsplitNone1 cs).length ≤ 2 := by
  simp only [rsplitNone1]
  split_ifs <;> simp

/-- C4: the parser skips a line (producing nothing, raising nothing —
the embedding is total) exactly when the trimmed line is empty, starts
with a hash, or rsplit on whitespace with one split yields fewer than
two parts; a skipped line contributes nothing to any tally. -/
theorem parseLine_skip_iff (data : String) :
    (parseLine data = none ↔
      (pyStrip data.data = [] ∨ (pyStrip data.data).head? = some '#' ∨
        (rsplitNone1 (pyStrip data.data)).length < 2)) ∧
    (parseLine data = none → ∀ m : Tally, tallyLine m data = m) := by
  refine ⟨?_, fun hn m => by simp [tallyLine, hn]⟩
  simp only [parseLine]
  by_cases he : (pyStrip data.data).isEmpty
  · simp [he, List.isEmpty_iff.mp he]
  · have hne : ¬ pyStrip data.data = [] := by simpa [List.isEmpty_iff] using he
    by_cases hh : (pyStrip data.data).head? = some '#'
    · simp [he, hh]
    · rcases hr : rsplitNone1 (pyStrip data.data) with _ | ⟨a, tail⟩
      · simp [he, hh, hr, hne]
      · rcases tail with _ | ⟨b, rest⟩
        · simp [he, hh, hr, hne]
        · have hlen := rsplitNone1_length_le (pyStrip data.data)
          rw [hr] at hlen
          have hrest : rest = [] := by
            cases rest with
            | nil => rfl
            | cons c cs => simp at hlen
          subst hrest
          simp [he, hh, hr, hne]

theorem parseLine_skip_iff_witness :
    parseLine "# comment" = none ∧ tallyLine [("x", 1)] "# comment" = [("x", 1)] :=
  ⟨by decide, (parseLine_skip_iff "# comment").2 (by decide) [("x", 1)]⟩

/-- C10 counterexample: with a one-entry tally and n = -1 the result is
the empty list, so a negative n can return an empty sequence. -/
theorem top_n_neg_empty : top_n_packages [("pkg", 1)] (-1) = [] := by decide

/-- C10 (amended): for every tally and negative n, `top_n_packages`
returns the fully sorted list of all entries with its last
min(|n|, size) entries removed, a sequence of length max(size + n, 0)
(empty when |n| is at least the size). -/
theorem top_n_neg (counts : Tally) (n : Int) (h : n < 0) :
    top_n_packages counts n
      = (top_n_packages counts (counts.length : Int)).take
          (counts.length - min ((-n).toNat) counts.length) ∧
    (top_n_packages counts n).length = ((counts.length : Int) + n).toNat := by
  have hfull : top_n_packages counts (counts.length : Int)
      = counts.insertionSort rowle := by
    unfold top_n_packages pySlice
    rw [if_pos (Int.ofNat_nonneg _)]
    simp [List.take_of_length_le, List.length_insertionSort]
  have hneg : top_n_packages counts n
      = (counts.insertionSort rowle).take (counts.length - (-n).toNat) := by
    unfold top_n_packages pySlice
    rw [if_neg (by omega), List.length_insertionSort]
  refine ⟨?_, ?_⟩
  · rw [hneg, hfull]
    congr 1
    omega
  · rw [hneg, List.length_take, List.length_insertionSort]
    omega

theorem top_n_neg_witness :
    top_n_packages [("a", 2), ("b", 1)] (-1)
      = (top_n_packages [("a", 2), ("b", 1)] (2 : Int)).take 1 ∧
    (top_n_packages [("a", 2), ("b", 1)] (-1)).length = 1 :=
  top_n_neg [("a", 2), ("b", 1)] (-1) (by decide)

/-- C6: the two candidate locations are tried in the fixed order .gz
then .xz, and when both are unavailable the call fails with an error
message naming both attempted URLs; no further candidate exists. -/
theorem open_stream_spec {α : Type} (arch mirror suite component : String)
    (tryOpen : String → Option α) :
    (∀ r, tryOpen (build_contents_urls arch mirror suite component).1 = some r →
      open_remote_contents_stream arch mirror suite component tryOpen
        = Except.ok (r, (build_contents_urls arch mirror suite component).1)) ∧
    (tryOpen (build_contents_urls arch mirror suite component).1 = none →
      ∀ r, tryOpen (build_contents_urls arch mirror suite component).2 = some r →
      open_remote_contents_stream arch mirror suite component tryOpen
        = Except.ok (r, (build_contents_urls arch mirror suite component).2)) ∧
    (tryOpen (build_contents_urls arch mirror suite component).1 = none →
      tryOpen (build_contents_urls arch mirror suite component).2 = none →
      ∃ msg, open_remote_contents_stream arch mirror suite component tryOpen
        = Except.error msg ∧
        substrOf (build_contents_urls arch mirror suite component).1 msg ∧
        substrOf (build_contents_urls arch mirror suite component).2 msg) := by
  refine ⟨?_, ?_, ?_⟩
  · intro r hr
    simp only [open_remote_contents_stream, hr]
  · intro h1 r hr
    simp only [open_remote_contents_stream, h1, hr]
  · intro h1 h2
    refine ⟨"Could not find Contents file for \x27" ++ arch ++ "\x27. Tried:\n  "
      ++ (build_contents_urls arch mirror suite component).1 ++ "\n  "
      ++ (build_contents_urls arch mirror suite component).2, ?_, ?_, ?_⟩
    · simp only [open_remote_contents_stream, h1, h2]
    · exact ⟨"Could not find Contents file for \x27" ++ arch ++ "\x27. Tried:\n  ",
        "\n  " ++ (build_contents_urls arch mirror suite component).2,
        by simp [String.append_assoc]⟩
    · exact ⟨"Could not find Contents file for \x27" ++ arch ++ "\x27. Tried:\n  "
        ++ (build_contents_urls arch mirror suite component).1 ++ "\n  ", "",
        by simp [String.append_assoc, String.append_empty]⟩

theorem open_stream_spec_witness :
    ∃ msg, open_remote_contents_stream "amd64" "http://mirror" "stable" "main"
        (fun _ => (none : Option Unit)) = Except.error msg ∧
      substrOf (build_contents_urls "amd64" "http://mirror" "stable" "main").1 msg ∧
      substrOf (build_contents_urls "amd64" "http://mirror" "stable" "main").2 msg :=
  (open_stream_spec "amd64" "http://mirror" "stable" "main"
    (fun _ => (none : Option Unit))).2.2 rfl rfl

theorem foldr_max_le : ∀ (l : List Nat), ∀ x ∈ l, x ≤ l.foldr max 0
  | [], x, hx => by simp at hx
  | a :: t, x, hx => by
    rcases List.mem_cons.mp hx with h | h
    · subst h
      exact le_max_left _ _
    · exact le_trans (foldr_max_le t x h) (le_max_right _ _)

theorem foldr_max_mem : ∀ (l : List Nat), l ≠ [] → l.foldr max 0 ∈ l
  | [], h => absurd rfl h
  | [a], _ => by simp
  | a :: b :: t, _ => by
    rcases le_total a ((b :: t).foldr max 0) with h | h
    · have he : (a :: b :: t).foldr max 0 = (b :: t).foldr max 0 := by
        simp only [List.foldr_cons] at h ⊢
        exact max_eq_right h
      rw [he]
      exact List.mem_cons_of_mem _ (foldr_max_mem (b :: t) (by simp))
    · have he : (a :: b :: t).foldr max 0 = a := by
        simp only [List.foldr_cons] at h ⊢
        exact max_eq_left h
      rw [he]
      exact List.mem_cons_self _ _

theorem joinNL_cons_cons (x y : String) (l : List String) :
    joinNL (x :: y :: l) = x ++ "\n" ++ joinNL (y :: l) := rfl

/-- C7: `format_table` renders the fixed placeholder for empty input;
for non-empty rows it renders the Package / File Count header, a
separator, and one row per entry, the name left-aligned in a column as
wide as the longest name and the count right-aligned in a column as
wide as the longest count string. -/
theorem format_table_spec :
    format_table [] = "(no data)" ∧
    ∀ rows : List (String × Nat), rows ≠ [] →
      ∃ W1 W2 : Nat,
        (∀ r ∈ rows, r.1.length ≤ W1) ∧ (∃ r ∈ rows, r.1.length = W1) ∧
        (∀ r ∈ rows, (Nat.repr r.2).length ≤ W2) ∧
        (∃ r ∈ rows, (Nat.repr r.2).length = W2) ∧
        format_table rows
          = ("\n" ++ ljust "Package" 30 ++ "  " ++ rjust "File Count" 20) ++ "\n"
            ++ (String.mk (List.replicate W1 '-') ++ "------------") ++ "\n"
            ++ joinNL (rows.map (fun r => ljust r.1 W1 ++ "  " ++ rjust (Nat.repr r.2) W2))
            ++ "\n" := by
  refine ⟨rfl, ?_⟩
  intro rows hrows
  refine ⟨(rows.map (fun r => r.1.length)).foldr max 0,
          (rows.map (fun r => (Nat.repr r.2).length)).foldr max 0, ?_, ?_, ?_, ?_, ?_⟩
  · intro r hr
    exact foldr_max_le _ _ (List.mem_map_of_mem _ hr)
  · obtain ⟨r, hr, he⟩ :=
      List.mem_map.mp (foldr_max_mem (rows.map (fun r => r.1.length)) (by simpa using hrows))
    exact ⟨r, hr, he⟩
  · intro r hr
    exact foldr_max_le _ _ (List.mem_map_of_mem _ hr)
  · obtain ⟨r, hr, he⟩ :=
      List.mem_map.mp (foldr_max_mem (rows.map (fun r => (Nat.repr r.2).length))
        (by simpa using hrows))
    exact ⟨r, hr, he⟩
  · obtain ⟨r0, rest, rfl⟩ := List.exists_cons_of_ne_nil hrows
    simp only [format_table, List.isEmpty_cons, if_neg Bool.false_ne_true, List.map_cons,
      joinNL_cons_cons, String.append_assoc]

theorem format_table_spec_witness :
    ∃ W1 W2 : Nat,
      (∀ r ∈ [("pkg", 12)], r.1.length ≤ W1) ∧
      (∃ r ∈ [("pkg", 12)], r.1.length = W1) ∧
      (∀ r ∈ [("pkg", 12)], (Nat.repr r.2).length ≤ W2) ∧
      (∃ r ∈ [("pkg", 12)], (Nat.repr r.2).length = W2) ∧
      format_table [("pkg", 12)]
        = ("\n" ++ ljust "Package" 30 ++ "  " ++ rjust "File Count" 20) ++ "\n"
          ++ (String.mk (List.replicate W1 '-') ++ "------------") ++ "\n"
          ++ joinNL ([("pkg", 12)].map
              (fun r => ljust r.1 W1 ++ "  " ++ rjust (Nat.repr r.2) W2))
          ++ "\n" :=
  format_table_spec.2 [("pkg", 12)] (by decide)
